import Mathlib

/-!
Delfos audio sender: gain, wire encoding, presence registry, session lifecycle.

A shallow embedding of `main.go`.

* `int16` samples are integers in `[-32768, 32767]` (`IsInt16`), bytes are naturals below 256.
* A finite `float64` is the rational it denotes. The product of two finite values is the exact
  rational product rounded to binary64: round to nearest, ties to even, gradual underflow,
  overflow to an infinity (`roundF64`). The gain is a finite `float64`.
* A slice filled by index inside a `for ... range` loop is a list updated with `List.set`.
* A Go `string` is a `String`, compared character by character.
* The capture stream, the socket and the log are represented by the calls made to them, in
  order; what a call returns is an explicit input of the function that makes it.
* Goroutines are explicit. A press of the button only launches `startStreaming` or hands the
  stop value to a capture loop; the launched call, the passes of a capture loop and the return of
  a stopped loop through its teardown are events of their own, taken in any order (`run`).
-/

set_option maxRecDepth 100000

namespace Delfos

/-! ## Numbers, gain and wire encoding -/

/-- The range of a Go `int16`. -/
def IsInt16 (s : ℤ) : Prop := -32768 ≤ s ∧ s ≤ 32767

instance (s : ℤ) : Decidable (IsInt16 s) := by unfold IsInt16; infer_instance

/-- The values a binary64 product of two finite operands can take. -/
inductive Float64 where
  | fin (q : ℚ)
  | posInf
  | negInf
deriving DecidableEq

/-- Round to the nearest integer, ties to the even one. -/
def roundHalfEven (q : ℚ) : ℤ :=
  let f := ⌊q⌋
  let r := q - f
  if r < 1 / 2 then f
  else if 1 / 2 < r then f + 1
  else if f % 2 = 0 then f else f + 1

/-- Exponent of the unit in the last place of a binary64 holding magnitude `a > 0`:
53 significant bits, with the subnormal floor at `2 ^ (-1074)`. -/
def ulpExp (a : ℚ) : ℤ := max (Int.log 2 a) (-1022) - 52

/-- IEEE 754 binary64 rounding of an exact rational result. -/
def roundF64 (q : ℚ) : Float64 :=
  if q = 0 then .fin 0
  else
    let e := ulpExp |q|
    let m := roundHalfEven (|q| / (2 : ℚ) ^ e)
    let v : ℚ := m * (2 : ℚ) ^ e
    if (2 : ℚ) ^ (1024 : ℕ) ≤ v then (if 0 < q then .posInf else .negInf)
    else .fin (if 0 < q then v else -v)

/-- Go `float64(s)` for an `int16` sample: exact. -/
def float64 (s : ℤ) : ℚ := (s : ℚ)

/-- Go `a * b` on two finite `float64` values. -/
def Float64.mul (a b : ℚ) : Float64 := roundF64 (a * b)

/-- Go `a < b` on `float64`. -/
def Float64.lt : Float64 → Float64 → Bool
  | .fin a, .fin b => decide (a < b)
  | .fin _, .posInf => true
  | .negInf, .fin _ => true
  | .negInf, .posInf => true
  | _, _ => false

/-- Truncation toward zero. -/
def truncToZero (q : ℚ) : ℤ := if 0 ≤ q then ⌊q⌋ else ⌈q⌉

/-- Two's complement reduction of an integer to 16 bits. -/
def wrap16 (n : ℤ) : ℤ := (n + 32768) % 65536 - 32768

/-- Go `int16(val)` for a `float64`: the fraction is discarded. For a value whose truncation does
not fit, Go leaves the result to the implementation; the model takes the low 16 bits, and `0` for
an infinity. `applyVolumeGain` converts only clamped values, which fit
(`gainSample_eq_saturate16`). -/
def int16 : Float64 → ℤ
  | .fin q => wrap16 (truncToZero q)
  | .posInf => 0
  | .negInf => 0

/-- The `if val > 32767 ... else if val < -32768 ...` of `applyVolumeGain`. -/
def clampFloat (val : Float64) : Float64 :=
  if Float64.lt (.fin 32767) val then .fin 32767
  else if Float64.lt val (.fin (-32768)) then .fin (-32768)
  else val

/-- One pass of the loop body of `applyVolumeGain`: the value stored in `adjusted[i]`. -/
def gainSample (s : ℤ) (gain : ℚ) : ℤ :=
  let val := Float64.mul (float64 s) gain
  let val := clampFloat val
  int16 val

/-- Source `applyVolumeGain(samples, gain)`: `adjusted := make([]int16, len(samples))`, then
`adjusted[i]` is assigned for each `i, s := range samples`. -/
def applyVolumeGain (samples : List ℤ) (gain : ℚ) : List ℤ :=
  samples.enum.foldl (fun adjusted p => adjusted.set p.1 (gainSample p.2 gain))
    (List.replicate samples.length 0)

/-- Go `byte(s)` for an `int16`: the low eight bits. -/
def byte (s : ℤ) : ℕ := (s % 256).toNat

/-- Source `int16ToBytes(samples)`: `buf := make([]byte, len(samples)*2)`, then `buf[2*i] = byte(s)` and
`buf[2*i+1] = byte(s >> 8)` for each `i, s := range samples`. -/
def int16ToBytes (samples : List ℤ) : List ℕ :=
  samples.enum.foldl
    (fun buf p => (buf.set (2 * p.1) (byte p.2)).set (2 * p.1 + 1) (byte (Int.shiftRight p.2 8)))
    (List.replicate (samples.length * 2) 0)

/-- Reading of the gain contract: the product, saturated to the `int16` range, fraction dropped. -/
def saturate16 : Float64 → ℤ
  | .fin q => truncToZero (max (-32768) (min 32767 q))
  | .posInf => 32767
  | .negInf => -32768

/-- The signed value of a 16-bit pattern `u < 65536`. -/
def signed16 (u : ℕ) : ℤ := if u < 32768 then (u : ℤ) else (u : ℤ) - 65536

/-- Decoding of the wire format as the contract words it: consecutive byte pairs, low byte
first, each read as a signed 16-bit value. A trailing odd byte is dropped. -/
def decodeLE : List ℕ → List ℤ
  | lo :: hi :: rest => signed16 (lo + 256 * hi) :: decodeLE rest
  | _ => []

/-! ## Presence listener -/

/-- Go `strings.HasPrefix(s, prefix)`: `len(s) >= len(prefix) && s[:len(prefix)] == prefix`. -/
def hasPrefix (s pre : String) : Bool :=
  decide (pre.length ≤ s.length) && (s.data.take pre.length == pre.data)

/-- Go `strings.TrimPrefix(s, prefix)`: `s[len(prefix):]` when `s` has the prefix, else `s`. -/
def trimPrefix (s pre : String) : String :=
  if hasPrefix s pre then String.mk (s.data.drop pre.length) else s

/-- What `pc.ReadFrom(buf)` hands to one pass of the receive loop: an error, or the text
`string(buf[:n])` of the datagram it read. -/
inductive ReadFrom where
  | error
  | ok (msg : String)
deriving DecidableEq

/-- The search `for _, existing := range ipSelect.Options` with its `break`: the final `found`. -/
def findOption : List String → String → Bool
  | [], _ => false
  | existing :: rest, senderIP =>
    if existing = senderIP then true else findOption rest senderIP

/-- One pass of the receive loop of `listenPresence`, on `ipSelect.Options`. -/
def listenStep (options : List String) : ReadFrom → List String
  | .error => options
  | .ok msg =>
    if hasPrefix msg "DELFOS_ONLINE:" then
      let senderIP := trimPrefix msg "DELFOS_ONLINE:"
      let found := findOption options senderIP
      if !found then options ++ [senderIP] else options
    else options

/-- Source `listenPresence(ipSelect)` with `ipSelect.Options` initially empty, run over the
results of its successive `ReadFrom` calls. `listenErr` tells whether `net.ListenPacket` failed,
in which case no loop is started. The value is `ipSelect.Options` afterwards. -/
def listenPresence (listenErr : Bool) (reads : List ReadFrom) : List String :=
  if listenErr then [] else reads.foldl listenStep []

/-- The announced address of a datagram, as the contract words it: the text after
`DELFOS_ONLINE:` when the datagram begins with it. -/
def announcement (msg : String) : Option String :=
  if msg.data.take 14 = "DELFOS_ONLINE:".data then some (String.mk (msg.data.drop 14)) else none

/-! ## Session -/

/-- Calls made to the capture stream and to the socket. -/
inductive Call where
  | openStream
  | dial (address : String)
  | streamStart
  | streamRead
  | streamStop
  | streamClose
  | connWrite (payload : List ℕ)
  | connClose
deriving DecidableEq

/-- The package-level variables of `main.go` that the session code touches, the capture streams
and sockets currently open (by handle), the goroutines in flight, and the calls and log lines
produced so far. A stream or socket is open from the call that returned it until `Close` is
called on it. `starting` counts the `go startStreaming()` launched and not yet run, `loops` the
capture-loop goroutines that have not returned, and `stopping` those among them that have taken
the stop value and have their return, through the deferred teardown, still to run. -/
structure State where
  selectedDev : Option String
  selectedIP : String
  started : Bool
  btnText : String
  buffer : List ℤ
  stream : Option ℕ
  conn : Option ℕ
  fresh : ℕ
  openStreams : List ℕ
  openConns : List ℕ
  starting : ℕ
  loops : ℕ
  stopping : ℕ
  calls : List Call
  logs : List String
deriving DecidableEq

/-- The variables as `main` leaves them before the window is shown. -/
def State.init : State where
  selectedDev := none
  selectedIP := ""
  started := false
  btnText := "Iniciar Transmissão"
  buffer := List.replicate 512 0
  stream := none
  conn := none
  fresh := 0
  openStreams := []
  openConns := []
  starting := 0
  loops := 0
  stopping := 0
  calls := []
  logs := []

/-- Whether `portaudio.OpenStream`, `net.Dial` and `stream.Start` return an error. -/
structure StartOutcome where
  openErr : Bool
  dialErr : Bool
  startErr : Bool
deriving DecidableEq

/-- Go `stream.Close()` on the package-level `stream`. -/
def State.closeStream (st : State) : State :=
  { st with
    calls := st.calls ++ [Call.streamClose]
    openStreams := match st.stream with
      | some h => st.openStreams.erase h
      | none => st.openStreams }

/-- Go `conn.Close()` on the package-level `conn`. -/
def State.closeConn (st : State) : State :=
  { st with
    calls := st.calls ++ [Call.connClose]
    openConns := match st.conn with
      | some h => st.openConns.erase h
      | none => st.openConns }

/-- Go `log.Println`. -/
def State.log (st : State) (line : String) : State :=
  { st with logs := st.logs ++ [line] }

/-- Source `startStreaming()` up to the point where it returns; on success one more capture loop
is alive (`go func() { ... }()`). The mutex is taken and released inside the call. -/
def startStreaming (o : StartOutcome) (st : State) : State :=
  if st.selectedDev = none ∨ st.selectedIP = "" then
    st.log "Selecione interface de áudio e IP."
  else
    let st := { st with calls := st.calls ++ [Call.openStream] }
    if o.openErr then
      ({ st with stream := none } : State).log "Erro ao abrir stream:"
    else
      let st := { st with
        stream := some st.fresh
        openStreams := st.fresh :: st.openStreams
        fresh := st.fresh + 1 }
      let st := { st with calls := st.calls ++ [Call.dial (st.selectedIP ++ ":9999")] }
      if o.dialErr then
        (({ st with conn := none } : State).log "Erro na conexão UDP:").closeStream
      else
        let st := { st with
          conn := some st.fresh
          openConns := st.fresh :: st.openConns
          fresh := st.fresh + 1 }
        let st := { st with calls := st.calls ++ [Call.streamStart] }
        if o.startErr then
          ((st.log "Erro ao iniciar stream:").closeConn).closeStream
        else
          { st.log ("Transmitindo áudio para " ++ st.selectedIP) with loops := st.loops + 1 }

/-- The deferred function of the capture loop; `stopErr` and `closeErr` tell whether
`stream.Stop()` and `stream.Close()` return an error. -/
def teardown (stopErr closeErr : Bool) (st : State) : State :=
  let st := { st with calls := st.calls ++ [Call.streamStop] }
  let st := if stopErr then st.log "Erro ao parar stream:" else st
  let st := st.closeStream
  let st := if closeErr then st.log "Erro ao fechar stream:" else st
  let st := st.closeConn
  st.log "Transmissão encerrada."

/-- What one pass of the `for { select { ... } }` of the capture loop meets: a value on
`stopStream` (with the results of the teardown calls that follow), or nothing on the channel, in
which case `stream.Read()` leaves `frame` in `buffer` and returns an error or not, and
`volumeGain` holds the given gain. -/
inductive LoopInput where
  | stop (stopErr closeErr : Bool)
  | pass (volumeGain : ℚ) (frame : List ℤ) (readErr : Bool)

/-- The capture loop of `startStreaming` over its successive passes. With no pass left the loop
is still running; after `stop` it has returned through the deferred teardown. -/
def captureLoop : List LoopInput → State → State
  | [], st => st
  | .stop stopErr closeErr :: _, st =>
    let st := st.log "Parando transmissão."
    { teardown stopErr closeErr st with loops := st.loops - 1 }
  | .pass gain frame readErr :: rest, st =>
    let st := { st with calls := st.calls ++ [Call.streamRead], buffer := frame }
    if readErr then captureLoop rest (st.log "Erro ao ler:")
    else
      let adjusted := applyVolumeGain st.buffer gain
      captureLoop rest { st with calls := st.calls ++ [Call.connWrite (int16ToBytes adjusted)] }

/-- The button callback installed by `main`, taken at the moment it returns. With `started`
false it launches `go startStreaming()` (the call itself runs later, `Event.startRun`), sets
`started` and shows `Parar`. With `started` true it sends on the unbuffered `stopStream`: the
send completes when a capture loop still in its `for` receives the value, and the callback then
clears `started`; the return of that loop through its teardown comes later
(`Event.loopReturn`). While no capture loop is there to receive, the send does not complete and
the callback does not return (`none`). -/
def startBtnTapped (st : State) : Option State :=
  if !st.started then
    some { st with starting := st.starting + 1, started := true, btnText := "Parar" }
  else
    if st.loops ≤ st.stopping then none
    else
      some { st with
        stopping := st.stopping + 1
        started := false
        btnText := "Iniciar Transmissão" }

/-- What happens while the window is shown: the two selection callbacks, a press of the button,
the run of a launched `startStreaming`, one pass of a capture loop that meets no stop value, and
the return of a capture loop that has taken the stop value. -/
inductive Event where
  | selectDevice (dev : Option String)
  | selectIP (ip : String)
  | tap
  | startRun (o : StartOutcome)
  | loopPass (gain : ℚ) (frame : List ℤ) (readErr : Bool)
  | loopReturn (stopErr closeErr : Bool)

/-- One event; `none` when it cannot happen in this state: a press whose send finds no capture
loop, a `startStreaming` run that was not launched, a pass without a capture loop in its `for`,
a return without a stopped loop. -/
def step (st : State) : Event → Option State
  | .selectDevice dev => some { st with selectedDev := dev }
  | .selectIP ip => some { st with selectedIP := ip }
  | .tap => startBtnTapped st
  | .startRun o =>
    if st.starting = 0 then none
    else some { startStreaming o st with starting := st.starting - 1 }
  | .loopPass gain frame readErr =>
    if st.loops ≤ st.stopping then none
    else some (captureLoop [LoopInput.pass gain frame readErr] st)
  | .loopReturn stopErr closeErr =>
    if st.stopping = 0 then none
    else
      some { captureLoop [LoopInput.stop stopErr closeErr] st with stopping := st.stopping - 1 }

/-- A schedule of events from a state; `none` when the schedule cannot happen. -/
def run : List Event → State → Option State
  | [], st => some st
  | e :: es, st => (step st e).bind (run es)

/-- Whether, along a schedule, `startStreaming` only ever runs when no stopped capture loop has
its teardown still to run. -/
def quiet : List Event → State → Bool
  | [], _ => true
  | e :: es, st =>
    (match e with
      | .startRun _ => decide (st.stopping = 0)
      | _ => true) &&
    (match step st e with
      | some st1 => quiet es st1
      | none => true)

/-- The payloads handed to `conn.Write`, in order. -/
def written (calls : List Call) : List (List ℕ) :=
  calls.filterMap fun c => match c with
    | .connWrite payload => some payload
    | _ => none

/-- Capture-loop passes that meet no stop signal, each given by the gain in force, the frame
read, and whether the read failed. -/
def passes (ps : List (ℚ × List ℤ × Bool)) : List LoopInput :=
  ps.map fun p => LoopInput.pass p.1 p.2.1 p.2.2

/-- The datagram expected for one pass: none for a failed read, otherwise the encoded frame
after gain. -/
def datagramOf (p : ℚ × List ℤ × Bool) : Option (List ℕ) :=
  if p.2.2 then none else some (int16ToBytes (applyVolumeGain p.2.1 p.1))

/-- At most one session is launched and not stopped: the capture loops that can still receive
the stop value, plus the `startStreaming` calls launched and not yet run, number at most one, and
when there is one the button is in its started position. -/
def Toggle (st : State) : Prop :=
  st.stopping ≤ st.loops ∧ (st.loops - st.stopping) + st.starting ≤ 1 ∧
  ((st.loops - st.stopping) + st.starting = 1 → st.started = true)

/-- The open resources are those of the capture loops that have not returned: with none, no
stream or socket is open; with one, exactly the stream and the socket held in `stream` and
`conn` are open. -/
def Settled (st : State) : Prop :=
  (st.loops = 0 ∧ st.openStreams = [] ∧ st.openConns = []) ∨
  (st.loops = 1 ∧
    ∃ h c, st.stream = some h ∧ st.conn = some c ∧ st.openStreams = [h] ∧ st.openConns = [c])

/-- The button shows `Parar` with no capture loop to stop and no start in flight. -/
def Stuck (st : State) : Prop :=
  st.started = true ∧ st.loops ≤ st.stopping ∧ st.starting = 0

instance (st : State) : Decidable (Stuck st) := by unfold Stuck; infer_instance

/-- The initial state with a device and a peer address selected. -/
def selectedState : State :=
  { State.init with selectedDev := some "mic", selectedIP := "10.0.0.5" }

/-- The state after a successful start from `selectedState`. -/
def runningState : State :=
  { selectedState with
    started := true
    btnText := "Parar"
    stream := some 0
    conn := some 1
    fresh := 2
    openStreams := [0]
    openConns := [1]
    loops := 1
    calls := [Call.openStream, Call.dial "10.0.0.5:9999", Call.streamStart]
    logs := ["Transmitindo áudio para 10.0.0.5"] }

/-! ## Lemmas on the numeric model -/

theorem fill_foldl {α β : Type} (f : α → β) (xs : List α) :
    ∀ (k : ℕ) (buf : List β), k + xs.length ≤ buf.length →
      (xs.enumFrom k).foldl (fun b p => b.set p.1 (f p.2)) buf
        = buf.take k ++ xs.map f ++ buf.drop (k + xs.length) := by
  induction xs with
  | nil => intro k buf _; simp
  | cons x xs ih =>
    intro k buf h
    simp only [List.length_cons] at h
    have hk : k < buf.length := by omega
    rw [List.enumFrom_cons, List.foldl_cons, ih (k + 1) _ (by simp; omega)]
    have h1 : List.take (k + 1) (buf.set k (f x)) = List.take k buf ++ [f x] := by
      rw [List.set_eq_take_append_cons_drop, if_pos hk]
      rw [List.take_append_eq_append_take]
      simp [List.take_take, Nat.min_eq_left (Nat.le_of_lt hk)]
    have h2 : List.drop (k + 1 + xs.length) (buf.set k (f x))
        = List.drop (k + (xs.length + 1)) buf := by
      rw [List.drop_set_of_lt _ _ (by omega)]
      congr 1; omega
    rw [h1, h2]; simp

theorem fill2_foldl {α β : Type} (f g : α → β) (xs : List α) :
    ∀ (k : ℕ) (buf : List β), 2 * k + 2 * xs.length ≤ buf.length →
      (xs.enumFrom k).foldl (fun b p => (b.set (2 * p.1) (f p.2)).set (2 * p.1 + 1) (g p.2)) buf
        = buf.take (2 * k) ++ xs.flatMap (fun x => [f x, g x])
            ++ buf.drop (2 * k + 2 * xs.length) := by
  induction xs with
  | nil => intro k buf _; simp
  | cons x xs ih =>
    intro k buf h
    simp only [List.length_cons] at h
    have hk : 2 * k + 1 < buf.length := by omega
    rw [List.enumFrom_cons, List.foldl_cons, ih (k + 1) _ (by simp; omega)]
    have h1 : List.take (2 * (k + 1)) ((buf.set (2 * k) (f x)).set (2 * k + 1) (g x))
        = List.take (2 * k) buf ++ [f x, g x] := by
      apply List.ext_getElem
      · simp; omega
      · intro n hn1 hn2
        simp only [List.length_append, List.length_take, List.length_cons, List.length_nil] at hn2
        rw [List.getElem_take, List.getElem_set, List.getElem_set]
        by_cases c1 : n < 2 * k
        · rw [if_neg (by omega), if_neg (by omega), List.getElem_append_left (by simp; omega)]
          simp
        · rw [List.getElem_append_right (by simp; omega)]
          have hl : (List.take (2 * k) buf).length = 2 * k := by simp; omega
          by_cases c2 : n = 2 * k
          · subst c2; simp [hl]
          · have : n = 2 * k + 1 := by omega
            subst this; simp [hl]
    have h2 : List.drop (2 * (k + 1) + 2 * xs.length)
          ((buf.set (2 * k) (f x)).set (2 * k + 1) (g x))
        = List.drop (2 * k + 2 * (xs.length + 1)) buf := by
      rw [List.drop_set_of_lt _ _ (by omega), List.drop_set_of_lt _ _ (by omega)]
      congr 1; omega
    rw [h1, h2]; simp

theorem applyVolumeGain_eq_map (samples : List ℤ) (gain : ℚ) :
    applyVolumeGain samples gain = samples.map (fun s => gainSample s gain) := by
  unfold applyVolumeGain List.enum
  rw [fill_foldl (fun s => gainSample s gain) samples 0 _ (by simp)]
  simp

theorem int16ToBytes_eq_flatMap (samples : List ℤ) :
    int16ToBytes samples
      = samples.flatMap (fun s => [byte s, byte (Int.shiftRight s 8)]) := by
  unfold int16ToBytes List.enum
  rw [fill2_foldl byte (fun s => byte (Int.shiftRight s 8)) samples 0 _ (by simp; omega)]
  simp
  omega

theorem roundHalfEven_intCast (n : ℤ) : roundHalfEven (n : ℚ) = n := by
  simp [roundHalfEven]

theorem truncToZero_intCast (n : ℤ) : truncToZero (n : ℚ) = n := by
  simp [truncToZero]

theorem truncToZero_bounds (q : ℚ) (h1 : -32768 ≤ q) (h2 : q ≤ 32767) :
    -32768 ≤ truncToZero q ∧ truncToZero q ≤ 32767 := by
  unfold truncToZero
  split
  · next h0 =>
    constructor
    · have : (0 : ℤ) ≤ ⌊q⌋ := Int.floor_nonneg.mpr h0
      omega
    · have h3 : ((⌊q⌋ : ℤ) : ℚ) ≤ q := Int.floor_le q
      have h4 : ((⌊q⌋ : ℤ) : ℚ) ≤ ((32767 : ℤ) : ℚ) := by push_cast; linarith
      exact_mod_cast h4
  · next h0 =>
    push_neg at h0
    constructor
    · have h3 : q ≤ ((⌈q⌉ : ℤ) : ℚ) := Int.le_ceil q
      have h4 : (((-32768 : ℤ)) : ℚ) ≤ ((⌈q⌉ : ℤ) : ℚ) := by push_cast; linarith
      exact_mod_cast h4
    · have : ⌈q⌉ ≤ 0 := Int.ceil_le.mpr (by push_cast; linarith)
      omega

theorem wrap16_of_fits (n : ℤ) (h : IsInt16 n) : wrap16 n = n := by
  unfold IsInt16 at h
  unfold wrap16
  omega

theorem int16_hi : int16 (.fin 32767) = 32767 := by
  have h : truncToZero (32767 : ℚ) = 32767 := by exact_mod_cast truncToZero_intCast 32767
  simp [int16, h, wrap16]

theorem int16_lo : int16 (.fin (-32768)) = -32768 := by
  have h : truncToZero (-32768 : ℚ) = -32768 := by exact_mod_cast truncToZero_intCast (-32768)
  simp [int16, h, wrap16]

theorem gainSample_eq_saturate16 (s : ℤ) (gain : ℚ) :
    gainSample s gain = saturate16 (Float64.mul (float64 s) gain) := by
  have hhi : truncToZero (32767 : ℚ) = 32767 := by exact_mod_cast truncToZero_intCast 32767
  have hlo : truncToZero (-32768 : ℚ) = -32768 := by
    exact_mod_cast truncToZero_intCast (-32768)
  unfold gainSample
  cases Float64.mul (float64 s) gain with
  | posInf => simp [clampFloat, Float64.lt, int16_hi, saturate16]
  | negInf => simp [clampFloat, Float64.lt, int16_lo, saturate16]
  | fin q =>
    simp only [clampFloat, Float64.lt, saturate16, decide_eq_true_eq]
    by_cases h1 : 32767 < q
    · rw [if_pos h1, min_eq_left (le_of_lt h1), int16_hi,
        max_eq_right (by norm_num : (-32768 : ℚ) ≤ 32767), hhi]
    · rw [if_neg h1]
      push_neg at h1
      by_cases h2 : q < -32768
      · rw [if_pos h2, int16_lo, min_eq_right h1, max_eq_left (le_of_lt h2), hlo]
      · rw [if_neg h2]
        push_neg at h2
        rw [min_eq_right h1, max_eq_right h2]
        exact wrap16_of_fits _ (truncToZero_bounds q h2 h1)

theorem saturate16_fits (v : Float64) : IsInt16 (saturate16 v) := by
  cases v with
  | posInf => simp [saturate16, IsInt16]
  | negInf => simp [saturate16, IsInt16]
  | fin q =>
    exact truncToZero_bounds _ (le_max_left _ _)
      (max_le (by norm_num) (min_le_left _ _))

theorem roundMag_natCast (k : ℕ) (hpos : 0 < k) (h : k < 2 ^ 53) :
    ((roundHalfEven ((k : ℚ) / (2 : ℚ) ^ ulpExp (k : ℚ)) : ℤ) : ℚ) * (2 : ℚ) ^ ulpExp (k : ℚ)
      = (k : ℚ) := by
  have hlog : Nat.log 2 k < 53 := Nat.log_lt_of_lt_pow (by omega) h
  have he : ulpExp (k : ℚ) = -((52 - Nat.log 2 k : ℕ) : ℤ) := by
    unfold ulpExp
    rw [Int.log_natCast]
    omega
  rw [he]
  have hdiv : (k : ℚ) / (2 : ℚ) ^ (-((52 - Nat.log 2 k : ℕ) : ℤ))
      = (((k * 2 ^ (52 - Nat.log 2 k) : ℕ) : ℤ) : ℚ) := by
    rw [zpow_neg, zpow_natCast]
    push_cast
    field_simp
  rw [hdiv, roundHalfEven_intCast, zpow_neg, zpow_natCast]
  push_cast
  field_simp

theorem roundF64_intCast (n : ℤ) (h : n.natAbs < 2 ^ 53) : roundF64 (n : ℚ) = .fin n := by
  unfold roundF64
  by_cases h0 : (n : ℚ) = 0
  · simp [h0]
  · rw [if_neg h0]
    have hn0 : n ≠ 0 := by exact_mod_cast h0
    have habs : |(n : ℚ)| = ((n.natAbs : ℕ) : ℚ) := by
      rw [Nat.cast_natAbs, Int.cast_abs]
    have hpos : 0 < n.natAbs := Int.natAbs_pos.mpr hn0
    simp only []
    rw [habs, roundMag_natCast _ hpos h]
    have hlt : ¬ ((2 : ℚ) ^ (1024 : ℕ) ≤ ((n.natAbs : ℕ) : ℚ)) := by
      rw [not_le]
      have h1 : ((n.natAbs : ℕ) : ℚ) < (2 : ℚ) ^ (53 : ℕ) := by exact_mod_cast h
      have h2 : (2 : ℚ) ^ (53 : ℕ) ≤ (2 : ℚ) ^ (1024 : ℕ) :=
        pow_le_pow_right₀ (by norm_num) (by norm_num)
      linarith
    rw [if_neg hlt, ← habs]
    congr 1
    by_cases hp : 0 < (n : ℚ)
    · rw [if_pos hp, abs_of_pos hp]
    · rw [if_neg hp, abs_of_nonpos (not_lt.mp hp), neg_neg]

theorem Float64.mul_one_of_int16 (s : ℤ) (h : IsInt16 s) :
    Float64.mul (float64 s) 1 = .fin s := by
  unfold Float64.mul float64
  rw [mul_one]
  apply roundF64_intCast
  unfold IsInt16 at h
  omega

theorem Float64.mul_example : Float64.mul (float64 20000) 2 = .fin 40000 := by
  unfold Float64.mul float64
  have h : ((20000 : ℤ) : ℚ) * 2 = ((40000 : ℤ) : ℚ) := by norm_num
  rw [h, roundF64_intCast 40000 (by decide)]
  norm_num

theorem shiftRight8_eq (s : ℤ) : Int.shiftRight s 8 = s / 256 := by
  have h := Int.shiftRight_eq_div_pow s 8
  simpa using h

theorem byte_lt (s : ℤ) : byte s < 256 := by
  unfold byte
  omega

theorem signed16_bytes (s : ℤ) (h : IsInt16 s) :
    signed16 (byte s + 256 * byte (Int.shiftRight s 8)) = s := by
  unfold IsInt16 at h
  rw [shiftRight8_eq]
  unfold signed16 byte
  split <;> omega

theorem decodeLE_flatMap (f : List ℤ) (h : ∀ s ∈ f, IsInt16 s) :
    decodeLE (f.flatMap (fun s => [byte s, byte (Int.shiftRight s 8)])) = f := by
  induction f with
  | nil => simp [decodeLE]
  | cons s f ih =>
    have e : (s :: f).flatMap (fun s => [byte s, byte (Int.shiftRight s 8)])
        = byte s :: byte (Int.shiftRight s 8)
            :: f.flatMap (fun s => [byte s, byte (Int.shiftRight s 8)]) := by
      simp [List.flatMap_cons]
    rw [e, decodeLE, signed16_bytes s (h s (by simp)), ih (fun t ht => h t (by simp [ht]))]

theorem saturate16_fin_intCast (s : ℤ) (h : IsInt16 s) : saturate16 (.fin s) = s := by
  unfold IsInt16 at h
  have h1 : ((s : ℤ) : ℚ) ≤ 32767 := by exact_mod_cast h.2
  have h2 : (-32768 : ℚ) ≤ ((s : ℤ) : ℚ) := by exact_mod_cast h.1
  simp only [saturate16]
  rw [min_eq_right h1, max_eq_right h2, truncToZero_intCast]

theorem length_int16ToBytes (f : List ℤ) : (int16ToBytes f).length = 2 * f.length := by
  rw [int16ToBytes_eq_flatMap]
  induction f with
  | nil => simp
  | cons s f ih =>
    simp only [List.flatMap_cons, List.length_append, List.length_cons, List.length_nil, ih]
    omega

/-! ## Gain -/

/-- C1: for every frame and every gain (in particular every gain `g ≥ 0`), `applyVolumeGain`
returns a frame of the same length; each output sample is the binary64 product `s * g`
saturated to `[-32768, 32767]` with its fraction discarded, the narrowing to `int16` never
wrapping; every output sample lies in `[-32768, 32767]`; and sample 20000 with gain 2.0 gives
32767. -/
theorem applyVolumeGain_saturates (samples : List ℤ) (gain : ℚ) :
    (applyVolumeGain samples gain).length = samples.length ∧
    applyVolumeGain samples gain
      = samples.map (fun s => saturate16 (Float64.mul (float64 s) gain)) ∧
    (∀ y ∈ applyVolumeGain samples gain, IsInt16 y) ∧
    Float64.mul (float64 20000) 2 = .fin 40000 ∧
    applyVolumeGain [20000] 2 = [32767] := by
  have hmap : ∀ (l : List ℤ) (g : ℚ),
      applyVolumeGain l g = l.map (fun s => saturate16 (Float64.mul (float64 s) g)) := by
    intro l g
    rw [applyVolumeGain_eq_map]
    exact List.map_congr_left (fun s _ => gainSample_eq_saturate16 s g)
  refine ⟨?_, hmap samples gain, ?_, Float64.mul_example, ?_⟩
  · rw [hmap, List.length_map]
  · intro y hy
    rw [hmap, List.mem_map] at hy
    obtain ⟨s, _, rfl⟩ := hy
    exact saturate16_fits _
  · rw [hmap, List.map_cons, List.map_nil, Float64.mul_example]
    have h : truncToZero (32767 : ℚ) = 32767 := by exact_mod_cast truncToZero_intCast 32767
    simp only [saturate16]
    rw [min_eq_left (by norm_num : (32767 : ℚ) ≤ 40000),
      max_eq_right (by norm_num : (-32768 : ℚ) ≤ 32767), h]

/-- C9: with gain exactly 1.0, `applyVolumeGain` returns the input frame, sample for sample. -/
theorem applyVolumeGain_one (samples : List ℤ) (h : ∀ s ∈ samples, IsInt16 s) :
    applyVolumeGain samples 1 = samples := by
  rw [applyVolumeGain_eq_map]
  conv_rhs => rw [← List.map_id samples]
  apply List.map_congr_left
  intro s hs
  rw [gainSample_eq_saturate16, Float64.mul_one_of_int16 s (h s hs),
    saturate16_fin_intCast s (h s hs)]
  rfl

theorem applyVolumeGain_one_witness :
    (∀ s ∈ [0, 1, -1, 12345, 32767, -32768], IsInt16 s) ∧
    applyVolumeGain [0, 1, -1, 12345, 32767, -32768] 1 = [0, 1, -1, 12345, 32767, -32768] :=
  ⟨by decide, applyVolumeGain_one _ (by decide)⟩

/-! ## Wire encoding -/

/-- C2: for every frame `f` of `int16` samples, reading `int16ToBytes f` back as consecutive
little-endian byte pairs, each taken as a signed 16-bit value, gives `f`; every element of
`int16ToBytes f` is a byte, and sample `i` occupies positions `2i` (low) and `2i+1` (high). -/
theorem decodeLE_int16ToBytes (f : List ℤ) (h : ∀ s ∈ f, IsInt16 s) :
    decodeLE (int16ToBytes f) = f ∧
    (∀ b ∈ int16ToBytes f, b < 256) ∧
    int16ToBytes f = f.flatMap (fun s => [(s % 256).toNat, ((s / 256) % 256).toNat]) := by
  refine ⟨?_, ?_, ?_⟩
  · rw [int16ToBytes_eq_flatMap]
    exact decodeLE_flatMap f h
  · intro b hb
    rw [int16ToBytes_eq_flatMap, List.mem_flatMap] at hb
    obtain ⟨s, _, hb⟩ := hb
    simp only [List.mem_cons, List.mem_singleton, List.not_mem_nil, or_false] at hb
    rcases hb with rfl | rfl <;> exact byte_lt _
  · rw [int16ToBytes_eq_flatMap]
    simp only [shiftRight8_eq, byte]

theorem decodeLE_int16ToBytes_witness :
    (∀ s ∈ [0, 1, -1, 258, 32767, -32768], IsInt16 s) ∧
    (decodeLE (int16ToBytes [0, 1, -1, 258, 32767, -32768]) = [0, 1, -1, 258, 32767, -32768] ∧
    (∀ b ∈ int16ToBytes [0, 1, -1, 258, 32767, -32768], b < 256) ∧
    int16ToBytes [0, 1, -1, 258, 32767, -32768]
      = [0, 1, -1, 258, 32767, -32768].flatMap
          (fun s => [(s % 256).toNat, ((s / 256) % 256).toNat])) :=
  ⟨by decide, decodeLE_int16ToBytes _ (by decide)⟩

/-- C10: for every frame `f`, `int16ToBytes f` has exactly `2 * len(f)` bytes, and the empty
frame gives the empty byte sequence. -/
theorem int16ToBytes_length (f : List ℤ) :
    (int16ToBytes f).length = 2 * f.length ∧ int16ToBytes [] = [] :=
  ⟨length_int16ToBytes f, by rfl⟩

/-! ## Presence registry -/

theorem findOption_eq_true (options : List String) (ip : String) :
    findOption options ip = true ↔ ip ∈ options := by
  induction options with
  | nil => simp [findOption]
  | cons e rest ih =>
    unfold findOption
    by_cases h : e = ip
    · simp [h]
    · rw [if_neg h, ih]
      simp [List.mem_cons, Ne.symm h]

theorem announcement_eq (msg : String) :
    announcement msg
      = if hasPrefix msg "DELFOS_ONLINE:" then some (trimPrefix msg "DELFOS_ONLINE:")
        else none := by
  have hlen : ("DELFOS_ONLINE:" : String).length = 14 := by decide
  unfold announcement trimPrefix hasPrefix
  rw [hlen]
  by_cases h : List.take 14 msg.data = ("DELFOS_ONLINE:" : String).data
  · have h14 : 14 ≤ msg.length := by
      have h2 := congrArg List.length h
      rw [List.length_take] at h2
      have h3 : ("DELFOS_ONLINE:" : String).data.length = 14 := by decide
      rw [h3] at h2
      show 14 ≤ msg.data.length
      omega
    simp [h, h14]
  · simp [h]

/-- Adding one announced address to the registry, as `listenStep` does it. -/
theorem listenStep_ok (options : List String) (msg : String) :
    listenStep options (.ok msg)
      = match announcement msg with
        | some ip => if ip ∈ options then options else options ++ [ip]
        | none => options := by
  rw [announcement_eq]
  unfold listenStep
  by_cases h : hasPrefix msg "DELFOS_ONLINE:" = true
  · simp only [h, if_true]
    by_cases hm : trimPrefix msg "DELFOS_ONLINE:" ∈ options
    · simp [hm, (findOption_eq_true _ _).mpr hm]
    · have hf : findOption options (trimPrefix msg "DELFOS_ONLINE:") = false := by
        rw [← Bool.not_eq_true, findOption_eq_true]; exact hm
      simp [hm, hf]
  · simp [h]

theorem foldl_listenStep (datagrams : List String) :
    ∀ options : List String,
      (datagrams.map ReadFrom.ok).foldl listenStep options
        = (datagrams.filterMap announcement).foldl
            (fun opts ip => if ip ∈ opts then opts else opts ++ [ip]) options := by
  induction datagrams with
  | nil => intro options; rfl
  | cons msg rest ih =>
    intro options
    rw [List.map_cons, List.foldl_cons, listenStep_ok, ih]
    cases h : announcement msg with
    | none => simp [List.filterMap_cons, h]
    | some ip => simp [List.filterMap_cons, h]

theorem registry_spec (sfx : List String) :
    ((sfx.foldl (fun opts ip => if ip ∈ opts then opts else opts ++ [ip]) []).Nodup) ∧
    (∀ ip, ip ∈ sfx.foldl (fun opts ip => if ip ∈ opts then opts else opts ++ [ip]) []
      ↔ ip ∈ sfx) ∧
    (sfx.foldl (fun opts ip => if ip ∈ opts then opts else opts ++ [ip]) []).Pairwise
      (fun a b => sfx.indexOf a < sfx.indexOf b) := by
  induction sfx using List.reverseRecOn with
  | nil => simp
  | append_singleton sfx x ih =>
    obtain ⟨hnd, hmem, hord⟩ := ih
    rw [List.foldl_append, List.foldl_cons, List.foldl_nil]
    have hmono : ∀ a, a ∈ sfx → (sfx ++ [x]).indexOf a = sfx.indexOf a :=
      fun a ha => List.indexOf_append_of_mem ha
    have hord2 : (sfx.foldl (fun opts ip => if ip ∈ opts then opts else opts ++ [ip])
        []).Pairwise (fun a b => (sfx ++ [x]).indexOf a < (sfx ++ [x]).indexOf b) := by
      refine hord.imp_of_mem ?_
      intro a b ha hb hab
      rw [hmono a ((hmem a).mp ha), hmono b ((hmem b).mp hb)]
      exact hab
    by_cases hx : x ∈ sfx.foldl (fun opts ip => if ip ∈ opts then opts else opts ++ [ip]) []
    · rw [if_pos hx]
      refine ⟨hnd, ?_, hord2⟩
      intro ip
      rw [hmem, List.mem_append, List.mem_singleton]
      constructor
      · exact Or.inl
      · rintro (h | rfl)
        · exact h
        · exact (hmem _).mp hx
    · rw [if_neg hx]
      have hxs : x ∉ sfx := fun h => hx ((hmem x).mpr h)
      refine ⟨?_, ?_, ?_⟩
      · rw [List.nodup_append]
        refine ⟨hnd, List.nodup_singleton x, ?_⟩
        intro a ha hb
        rw [List.mem_singleton] at hb
        exact hx (hb ▸ ha)
      · intro ip
        rw [List.mem_append, List.mem_append, hmem]
      · rw [List.pairwise_append]
        refine ⟨hord2, List.pairwise_singleton _ _, ?_⟩
        intro a ha b hb
        rw [List.mem_singleton] at hb
        subst hb
        rw [hmono a ((hmem a).mp ha), List.indexOf_append_of_not_mem hxs]
        have : sfx.indexOf a < sfx.length := List.indexOf_lt_length.mpr ((hmem a).mp ha)
        omega

/-- C3: starting from an empty registry, after any sequence of received datagrams the registry
`ipSelect.Options` holds exactly the addresses announced by the datagrams that begin with
`DELFOS_ONLINE:` (the text after the prefix), each once, ordered by first occurrence; a datagram
without the prefix, such as `HELLO:x`, leaves any registry unchanged; and the announcements
10.0.0.5, 10.0.0.7, 10.0.0.5 give [10.0.0.5, 10.0.0.7]. -/
theorem listenPresence_registry (datagrams : List String) :
    (listenPresence false (datagrams.map ReadFrom.ok)).Nodup ∧
    (∀ ip, ip ∈ listenPresence false (datagrams.map ReadFrom.ok)
      ↔ ip ∈ datagrams.filterMap announcement) ∧
    (listenPresence false (datagrams.map ReadFrom.ok)).Pairwise
      (fun a b => (datagrams.filterMap announcement).indexOf a
        < (datagrams.filterMap announcement).indexOf b) ∧
    (∀ options msg, announcement msg = none → listenStep options (.ok msg) = options) ∧
    (∀ options, listenStep options (.ok "HELLO:x") = options) ∧
    listenPresence false [.ok "DELFOS_ONLINE:10.0.0.5", .ok "DELFOS_ONLINE:10.0.0.7",
      .ok "DELFOS_ONLINE:10.0.0.5"] = ["10.0.0.5", "10.0.0.7"] ∧
    listenPresence false [.ok "DELFOS_ONLINE:192.168.1.10"] = ["192.168.1.10"] := by
  have hrun : listenPresence false (datagrams.map ReadFrom.ok)
      = (datagrams.filterMap announcement).foldl
          (fun opts ip => if ip ∈ opts then opts else opts ++ [ip]) [] := by
    unfold listenPresence
    simp only [Bool.false_eq_true, if_false]
    exact foldl_listenStep datagrams []
  rw [hrun]
  obtain ⟨h1, h2, h3⟩ := registry_spec (datagrams.filterMap announcement)
  refine ⟨h1, h2, h3, ?_, ?_, by decide, by decide⟩
  · intro options msg h
    rw [listenStep_ok, h]
  · intro options
    rw [listenStep_ok]
    have : announcement "HELLO:x" = none := by decide
    rw [this]

/-! ## Capture loop -/

theorem captureLoop_pass_err (gain : ℚ) (frame : List ℤ) (rest : List LoopInput) (st : State) :
    captureLoop (LoopInput.pass gain frame true :: rest) st
      = captureLoop rest
          (State.log { st with calls := st.calls ++ [Call.streamRead], buffer := frame }
            "Erro ao ler:") := rfl

theorem captureLoop_pass_ok (gain : ℚ) (frame : List ℤ) (rest : List LoopInput) (st : State) :
    captureLoop (LoopInput.pass gain frame false :: rest) st
      = captureLoop rest
          { st with
            calls := (st.calls ++ [Call.streamRead])
              ++ [Call.connWrite (int16ToBytes (applyVolumeGain frame gain))]
            buffer := frame } := rfl

theorem passes_cons (g : ℚ) (f : List ℤ) (e : Bool) (ps : List (ℚ × List ℤ × Bool)) :
    passes ((g, f, e) :: ps) = LoopInput.pass g f e :: passes ps := rfl

theorem captureLoop_passes_append (ps : List (ℚ × List ℤ × Bool)) (rest : List LoopInput) :
    ∀ st : State,
      captureLoop (passes ps ++ rest) st = captureLoop rest (captureLoop (passes ps) st) := by
  induction ps with
  | nil => intro st; rfl
  | cons p ps ih =>
    intro st
    obtain ⟨g, f, e⟩ := p
    rw [passes_cons, List.cons_append]
    cases e
    · rw [captureLoop_pass_ok, captureLoop_pass_ok]; exact ih _
    · rw [captureLoop_pass_err, captureLoop_pass_err]; exact ih _

theorem written_append (a b : List Call) : written (a ++ b) = written a ++ written b := by
  unfold written
  rw [List.filterMap_append]

theorem captureLoop_passes_state (ps : List (ℚ × List ℤ × Bool)) :
    ∀ st : State,
      written (captureLoop (passes ps) st).calls = written st.calls ++ ps.filterMap datagramOf ∧
      (captureLoop (passes ps) st).loops = st.loops ∧
      (captureLoop (passes ps) st).stream = st.stream ∧
      (captureLoop (passes ps) st).conn = st.conn ∧
      (captureLoop (passes ps) st).openStreams = st.openStreams ∧
      (captureLoop (passes ps) st).openConns = st.openConns ∧
      (captureLoop (passes ps) st).started = st.started := by
  induction ps with
  | nil => intro st; simp [passes, captureLoop]
  | cons p ps ih =>
    intro st
    obtain ⟨g, f, e⟩ := p
    rw [passes_cons]
    cases e
    · rw [captureLoop_pass_ok]
      obtain ⟨h1, h2, h3, h4, h5, h6, h7⟩ := ih
        { st with
          calls := (st.calls ++ [Call.streamRead])
            ++ [Call.connWrite (int16ToBytes (applyVolumeGain f g))]
          buffer := f }
      refine ⟨?_, h2, h3, h4, h5, h6, h7⟩
      rw [h1]
      simp [written_append, written, List.filterMap_cons, datagramOf]
    · rw [captureLoop_pass_err]
      obtain ⟨h1, h2, h3, h4, h5, h6, h7⟩ := ih (State.log
        { st with calls := st.calls ++ [Call.streamRead], buffer := f } "Erro ao ler:")
      refine ⟨?_, h2, h3, h4, h5, h6, h7⟩
      rw [h1]
      simp [State.log, written_append, written, List.filterMap_cons, datagramOf]

theorem teardown_calls (stopErr closeErr : Bool) (st : State) :
    (teardown stopErr closeErr st).calls
      = st.calls ++ [Call.streamStop, Call.streamClose, Call.connClose] := by
  cases stopErr <;> cases closeErr <;>
    simp [teardown, State.log, State.closeStream, State.closeConn]

theorem captureLoop_stop_calls (stopErr closeErr : Bool) (rest : List LoopInput) (st : State) :
    (captureLoop (LoopInput.stop stopErr closeErr :: rest) st).calls
      = st.calls ++ [Call.streamStop, Call.streamClose, Call.connClose] := by
  unfold captureLoop
  simp only [teardown_calls]
  simp [State.log]

/-- C6: when the capture loop takes the stop signal, after any passes, the calls it makes from
then on are exactly stop-capture-stream, close-capture-stream, close-socket, in that order,
whatever `stream.Stop()` and `stream.Close()` return; nothing is called after them. -/
theorem teardown_order (ps : List (ℚ × List ℤ × Bool)) (stopErr closeErr : Bool)
    (rest : List LoopInput) (st : State) :
    (captureLoop (passes ps ++ LoopInput.stop stopErr closeErr :: rest) st).calls
      = (captureLoop (passes ps) st).calls
        ++ [Call.streamStop, Call.streamClose, Call.connClose] ∧
    (teardown stopErr closeErr st).calls
      = st.calls ++ [Call.streamStop, Call.streamClose, Call.connClose] := by
  refine ⟨?_, teardown_calls stopErr closeErr st⟩
  rw [captureLoop_passes_append, captureLoop_stop_calls]

theorem gainSample_zero (gain : ℚ) : gainSample 0 gain = 0 := by
  rw [gainSample_eq_saturate16]
  have h : Float64.mul (float64 0) gain = .fin 0 := by
    simp [Float64.mul, float64, roundF64]
  rw [h]
  exact saturate16_fin_intCast 0 (by decide)

theorem applyVolumeGain_zeros (n : ℕ) (gain : ℚ) :
    applyVolumeGain (List.replicate n 0) gain = List.replicate n 0 := by
  rw [applyVolumeGain_eq_map, List.map_replicate, gainSample_zero]

theorem int16ToBytes_zeros (n : ℕ) :
    int16ToBytes (List.replicate n 0) = List.replicate (2 * n) 0 := by
  rw [int16ToBytes_eq_flatMap]
  induction n with
  | zero => rfl
  | succ n ih =>
    rw [List.replicate_succ, List.flatMap_cons, ih]
    have : 2 * (n + 1) = (2 * n + 1) + 1 := by ring
    rw [this, List.replicate_succ, List.replicate_succ]
    rfl

theorem datagramOf_length (p : ℚ × List ℤ × Bool) :
    (datagramOf p).map List.length = if p.2.2 then none else some (2 * p.2.1.length) := by
  obtain ⟨g, f, e⟩ := p
  cases e
  · have hl : (applyVolumeGain f g).length = f.length := by
      rw [applyVolumeGain_eq_map, List.length_map]
    simp [datagramOf, length_int16ToBytes, hl]
  · simp [datagramOf]

/-- C8: for every sequence of passes (gain in force, frame read, read failed or not) followed
by a stop signal, the payloads handed to `conn.Write` are, in capture order, exactly one per
successful read, each `int16ToBytes (applyVolumeGain frame gain)` and `2 * len(frame)` bytes
long; the loop then has returned; a failed read writes nothing and the loop goes on with the
next pass; and three all-zero frames of 512 samples with gain 2.0 give exactly three datagrams
of 1024 bytes. -/
theorem captureLoop_sends (ps : List (ℚ × List ℤ × Bool)) (stopErr closeErr : Bool)
    (st : State) :
    written (captureLoop (passes ps ++ [LoopInput.stop stopErr closeErr]) st).calls
      = written st.calls ++ ps.filterMap datagramOf ∧
    (ps.filterMap datagramOf).map List.length
      = ps.filterMap (fun p => if p.2.2 then none else some (2 * p.2.1.length)) ∧
    (captureLoop (passes ps ++ [LoopInput.stop stopErr closeErr]) st).loops = st.loops - 1 ∧
    (∀ (gain : ℚ) (frame : List ℤ) (rest : List LoopInput) (s : State),
      captureLoop (LoopInput.pass gain frame true :: rest) s
        = captureLoop rest
            (State.log { s with calls := s.calls ++ [Call.streamRead], buffer := frame }
              "Erro ao ler:") ∧
      written (s.calls ++ [Call.streamRead]) = written s.calls) ∧
    written (captureLoop
        (passes (List.replicate 3 (2, List.replicate 512 0, false))
          ++ [LoopInput.stop false false]) State.init).calls
      = List.replicate 3 (List.replicate 1024 0) := by
  have hw : ∀ (qs : List (ℚ × List ℤ × Bool)) (a b : Bool) (s : State),
      written (captureLoop (passes qs ++ [LoopInput.stop a b]) s).calls
        = written s.calls ++ qs.filterMap datagramOf := by
    intro qs a b s
    rw [captureLoop_passes_append, captureLoop_stop_calls, written_append,
      (captureLoop_passes_state qs s).1]
    simp [written]
  refine ⟨hw ps stopErr closeErr st, ?_, ?_, ?_, ?_⟩
  · rw [List.map_filterMap]
    congr 1
    funext p
    exact datagramOf_length p
  · rw [captureLoop_passes_append]
    show (captureLoop (passes ps) st).loops - 1 = st.loops - 1
    rw [(captureLoop_passes_state ps st).2.1]
  · intro gain frame rest s
    exact ⟨captureLoop_pass_err gain frame rest s, by simp [written_append, written]⟩
  · rw [hw]
    have hd : datagramOf ((2 : ℚ), List.replicate 512 (0 : ℤ), false)
        = some (List.replicate 1024 0) := by
      simp only [datagramOf, Bool.false_eq_true, if_false]
      rw [applyVolumeGain_zeros, int16ToBytes_zeros]
    have h3 : List.filterMap datagramOf
          (List.replicate 3 ((2 : ℚ), List.replicate 512 (0 : ℤ), false))
        = List.replicate 3 (List.replicate 1024 0) := by
      generalize ((2 : ℚ), List.replicate 512 (0 : ℤ), false) = x at hd
      generalize List.replicate 1024 (0 : ℕ) = d at hd
      have e3 : List.replicate 3 x = [x, x, x] := rfl
      rw [e3]
      simp only [List.filterMap_cons, hd, List.filterMap_nil]
      rfl
    rw [h3]
    rfl

/-! ## Session lifecycle -/

theorem startStreaming_fields (o : StartOutcome) (st : State) :
    (startStreaming o st).started = st.started ∧
    (startStreaming o st).starting = st.starting ∧
    (startStreaming o st).stopping = st.stopping ∧
    ((startStreaming o st).loops = st.loops ∨ (startStreaming o st).loops = st.loops + 1) := by
  obtain ⟨oe, de, se⟩ := o
  unfold startStreaming
  by_cases hv : st.selectedDev = none ∨ st.selectedIP = ""
  · rw [if_pos hv]
    simp [State.log]
  · rw [if_neg hv]
    cases oe <;> cases de <;> cases se <;>
      simp [State.log, State.closeConn, State.closeStream]

theorem startStreaming_idle (o : StartOutcome) (st : State)
    (h : st.loops = 0 ∧ st.openStreams = [] ∧ st.openConns = []) :
    ((startStreaming o st).loops = 0 ∧ (startStreaming o st).openStreams = [] ∧
      (startStreaming o st).openConns = []) ∨
    ((startStreaming o st).loops = 1 ∧
      ∃ s c, (startStreaming o st).stream = some s ∧ (startStreaming o st).conn = some c ∧
        (startStreaming o st).openStreams = [s] ∧ (startStreaming o st).openConns = [c]) := by
  obtain ⟨h1, h2, h3⟩ := h
  obtain ⟨oe, de, se⟩ := o
  unfold startStreaming
  by_cases hv : st.selectedDev = none ∨ st.selectedIP = ""
  · left
    rw [if_pos hv]
    exact ⟨h1, h2, h3⟩
  · rw [if_neg hv]
    cases oe
    · cases de
      · cases se
        · right
          simp [State.log, h1, h2, h3]
        · left
          simp [State.log, State.closeConn, State.closeStream, h1, h2, h3]
      · left
        simp [State.log, State.closeStream, h1, h2, h3]
    · left
      simp [State.log, h1, h2, h3]

theorem pass_fields (gain : ℚ) (frame : List ℤ) (readErr : Bool) (st : State) :
    (captureLoop [LoopInput.pass gain frame readErr] st).started = st.started ∧
    (captureLoop [LoopInput.pass gain frame readErr] st).starting = st.starting ∧
    (captureLoop [LoopInput.pass gain frame readErr] st).loops = st.loops ∧
    (captureLoop [LoopInput.pass gain frame readErr] st).stopping = st.stopping ∧
    (captureLoop [LoopInput.pass gain frame readErr] st).stream = st.stream ∧
    (captureLoop [LoopInput.pass gain frame readErr] st).conn = st.conn ∧
    (captureLoop [LoopInput.pass gain frame readErr] st).openStreams = st.openStreams ∧
    (captureLoop [LoopInput.pass gain frame readErr] st).openConns = st.openConns := by
  cases readErr
  · rw [captureLoop_pass_ok]; simp [captureLoop]
  · rw [captureLoop_pass_err]; simp [captureLoop, State.log]

theorem stop_fields (stopErr closeErr : Bool) (st : State) :
    (captureLoop [LoopInput.stop stopErr closeErr] st).started = st.started ∧
    (captureLoop [LoopInput.stop stopErr closeErr] st).starting = st.starting ∧
    (captureLoop [LoopInput.stop stopErr closeErr] st).loops = st.loops - 1 ∧
    (captureLoop [LoopInput.stop stopErr closeErr] st).stopping = st.stopping ∧
    (captureLoop [LoopInput.stop stopErr closeErr] st).stream = st.stream ∧
    (captureLoop [LoopInput.stop stopErr closeErr] st).conn = st.conn ∧
    (captureLoop [LoopInput.stop stopErr closeErr] st).openStreams
      = (match st.stream with
          | some h => st.openStreams.erase h
          | none => st.openStreams) ∧
    (captureLoop [LoopInput.stop stopErr closeErr] st).openConns
      = (match st.conn with
          | some h => st.openConns.erase h
          | none => st.openConns) := by
  cases stopErr <;> cases closeErr <;>
    simp [captureLoop, teardown, State.log, State.closeStream, State.closeConn]

theorem step_toggle (st st1 : State) (e : Event) (ht : Toggle st) (h : step st e = some st1) :
    Toggle st1 := by
  obtain ⟨t1, t2, t3⟩ := ht
  cases e with
  | selectDevice dev =>
    simp only [step, Option.some.injEq] at h
    subst h
    exact ⟨t1, t2, t3⟩
  | selectIP ip =>
    simp only [step, Option.some.injEq] at h
    subst h
    exact ⟨t1, t2, t3⟩
  | tap =>
    simp only [step, startBtnTapped] at h
    by_cases hst : st.started = true
    · simp only [hst, Bool.not_true, Bool.false_eq_true, if_false] at h
      by_cases h0 : st.loops ≤ st.stopping
      · simp [h0] at h
      · rw [if_neg h0, Option.some.injEq] at h
        subst h
        refine ⟨?_, ?_, ?_⟩
        · show st.stopping + 1 ≤ st.loops
          omega
        · show st.loops - (st.stopping + 1) + st.starting ≤ 1
          omega
        · show st.loops - (st.stopping + 1) + st.starting = 1 → false = true
          omega
    · have hst2 : st.started = false := by simpa using hst
      simp only [hst2, Bool.not_false, if_true, Option.some.injEq] at h
      subst h
      have hz : st.loops - st.stopping + st.starting ≠ 1 := by
        intro hc
        rw [t3 hc] at hst2
        exact absurd hst2 (by decide)
      refine ⟨t1, ?_, fun _ => rfl⟩
      show st.loops - st.stopping + (st.starting + 1) ≤ 1
      omega
  | startRun o =>
    simp only [step] at h
    by_cases h0 : st.starting = 0
    · simp [h0] at h
    · rw [if_neg h0, Option.some.injEq] at h
      subst h
      obtain ⟨f1, -, f3, f4⟩ := startStreaming_fields o st
      refine ⟨?_, ?_, ?_⟩
      · show (startStreaming o st).stopping ≤ (startStreaming o st).loops
        rw [f3]; rcases f4 with f4 | f4 <;> rw [f4] <;> omega
      · show (startStreaming o st).loops - (startStreaming o st).stopping
          + (st.starting - 1) ≤ 1
        rw [f3]; rcases f4 with f4 | f4 <;> rw [f4] <;> omega
      · show (startStreaming o st).loops - (startStreaming o st).stopping
          + (st.starting - 1) = 1 → (startStreaming o st).started = true
        intro _
        rw [f1]
        apply t3
        omega
  | loopPass gain frame readErr =>
    simp only [step] at h
    by_cases h0 : st.loops ≤ st.stopping
    · simp [h0] at h
    · rw [if_neg h0, Option.some.injEq] at h
      subst h
      obtain ⟨p1, p2, p3, p4, -⟩ := pass_fields gain frame readErr st
      unfold Toggle
      rw [p1, p2, p3, p4]
      exact ⟨t1, t2, t3⟩
  | loopReturn stopErr closeErr =>
    simp only [step] at h
    by_cases h0 : st.stopping = 0
    · simp [h0] at h
    · rw [if_neg h0, Option.some.injEq] at h
      subst h
      obtain ⟨p1, p2, p3, -⟩ := stop_fields stopErr closeErr st
      refine ⟨?_, ?_, ?_⟩
      · show st.stopping - 1 ≤ (captureLoop [LoopInput.stop stopErr closeErr] st).loops
        rw [p3]; omega
      · show (captureLoop [LoopInput.stop stopErr closeErr] st).loops - (st.stopping - 1)
          + (captureLoop [LoopInput.stop stopErr closeErr] st).starting ≤ 1
        rw [p3, p2]; omega
      · show (captureLoop [LoopInput.stop stopErr closeErr] st).loops - (st.stopping - 1)
          + (captureLoop [LoopInput.stop stopErr closeErr] st).starting = 1
            → (captureLoop [LoopInput.stop stopErr closeErr] st).started = true
        rw [p3, p2, p1]
        intro hc
        apply t3
        omega

theorem step_settled (st st1 : State) (e : Event) (ht : Toggle st) (hs : Settled st)
    (hq : ∀ o, e = Event.startRun o → st.stopping = 0) (h : step st e = some st1) :
    Settled st1 := by
  obtain ⟨t1, t2, -⟩ := ht
  cases e with
  | selectDevice dev =>
    simp only [step, Option.some.injEq] at h
    subst h
    exact hs
  | selectIP ip =>
    simp only [step, Option.some.injEq] at h
    subst h
    exact hs
  | tap =>
    simp only [step, startBtnTapped] at h
    by_cases hst : st.started = true
    · simp only [hst, Bool.not_true, Bool.false_eq_true, if_false] at h
      by_cases h0 : st.loops ≤ st.stopping
      · simp [h0] at h
      · rw [if_neg h0, Option.some.injEq] at h
        subst h
        exact hs
    · have hst2 : st.started = false := by simpa using hst
      simp only [hst2, Bool.not_false, if_true, Option.some.injEq] at h
      subst h
      exact hs
  | startRun o =>
    have hz := hq o rfl
    simp only [step] at h
    by_cases h0 : st.starting = 0
    · simp [h0] at h
    · rw [if_neg h0, Option.some.injEq] at h
      subst h
      have hl : st.loops = 0 := by omega
      have hidle : st.loops = 0 ∧ st.openStreams = [] ∧ st.openConns = [] := by
        rcases hs with hi | ⟨h1, -⟩
        · exact hi
        · omega
      exact startStreaming_idle o st hidle
  | loopPass gain frame readErr =>
    simp only [step] at h
    by_cases h0 : st.loops ≤ st.stopping
    · simp [h0] at h
    · rw [if_neg h0, Option.some.injEq] at h
      subst h
      obtain ⟨-, -, p3, -, p5, p6, p7, p8⟩ := pass_fields gain frame readErr st
      unfold Settled
      rw [p3, p5, p6, p7, p8]
      exact hs
  | loopReturn stopErr closeErr =>
    simp only [step] at h
    by_cases h0 : st.stopping = 0
    · simp [h0] at h
    · rw [if_neg h0, Option.some.injEq] at h
      subst h
      obtain ⟨-, -, p3, -, -, -, p7, p8⟩ := stop_fields stopErr closeErr st
      rcases hs with ⟨hl, -, -⟩ | ⟨hl, s, c, e1, e2, e3, e4⟩
      · omega
      · left
        refine ⟨?_, ?_, ?_⟩
        · show (captureLoop [LoopInput.stop stopErr closeErr] st).loops = 0
          rw [p3, hl]
        · show (captureLoop [LoopInput.stop stopErr closeErr] st).openStreams = []
          rw [p7, e1, e3]; simp
        · show (captureLoop [LoopInput.stop stopErr closeErr] st).openConns = []
          rw [p8, e2, e4]; simp

theorem run_toggle (events : List Event) :
    ∀ st st1 : State, Toggle st → run events st = some st1 → Toggle st1 := by
  induction events with
  | nil =>
    intro st st1 ht h
    simp only [run, Option.some.injEq] at h
    subst h
    exact ht
  | cons e es ih =>
    intro st st1 ht h
    simp only [run] at h
    cases hstep : step st e with
    | none => rw [hstep] at h; simp at h
    | some st2 =>
      rw [hstep] at h
      exact ih st2 st1 (step_toggle st st2 e ht hstep) h

theorem run_settled (events : List Event) :
    ∀ st st1 : State, Toggle st → Settled st → quiet events st = true →
      run events st = some st1 → Settled st1 := by
  induction events with
  | nil =>
    intro st st1 _ hs _ h
    simp only [run, Option.some.injEq] at h
    subst h
    exact hs
  | cons e es ih =>
    intro st st1 ht hs hq h
    simp only [run] at h
    cases hstep : step st e with
    | none => rw [hstep] at h; simp at h
    | some st2 =>
      rw [hstep] at h
      simp only [quiet, hstep, Bool.and_eq_true] at hq
      have hq1 : ∀ o, e = Event.startRun o → st.stopping = 0 := by
        intro o he
        subst he
        simpa using hq.1
      exact ih st2 st1 (step_toggle st st2 e ht hstep)
        (step_settled st st2 e ht hs hq1 hstep) hq.2 h

theorem run_append (es fs : List Event) :
    ∀ st : State, run (es ++ fs) st = (run es st).bind (run fs) := by
  induction es with
  | nil => intro st; rfl
  | cons e es ih =>
    intro st
    show (step st e).bind (run (es ++ fs)) = ((step st e).bind (run es)).bind (run fs)
    cases step st e with
    | none => rfl
    | some st1 => exact ih st1

theorem stuck_step (st st1 : State) (e : Event) (hs : Stuck st) (h : step st e = some st1) :
    Stuck st1 := by
  obtain ⟨s1, s2, s3⟩ := hs
  cases e with
  | selectDevice dev =>
    simp only [step, Option.some.injEq] at h
    subst h
    exact ⟨s1, s2, s3⟩
  | selectIP ip =>
    simp only [step, Option.some.injEq] at h
    subst h
    exact ⟨s1, s2, s3⟩
  | tap =>
    simp [step, startBtnTapped, s1, s2] at h
  | startRun o =>
    simp [step, s3] at h
  | loopPass gain frame readErr =>
    simp [step, s2] at h
  | loopReturn stopErr closeErr =>
    simp only [step] at h
    by_cases h0 : st.stopping = 0
    · simp [h0] at h
    · rw [if_neg h0, Option.some.injEq] at h
      subst h
      obtain ⟨p1, p2, p3, -⟩ := stop_fields stopErr closeErr st
      refine ⟨?_, ?_, ?_⟩
      · show (captureLoop [LoopInput.stop stopErr closeErr] st).started = true
        rw [p1, s1]
      · show (captureLoop [LoopInput.stop stopErr closeErr] st).loops ≤ st.stopping - 1
        rw [p3]; omega
      · show (captureLoop [LoopInput.stop stopErr closeErr] st).starting = 0
        rw [p2, s3]

theorem stuck_blocks (es rest : List Event) :
    ∀ st : State, Stuck st → run (es ++ Event.tap :: rest) st = none := by
  induction es with
  | nil =>
    intro st hs
    obtain ⟨s1, s2, -⟩ := hs
    simp [run, step, startBtnTapped, s1, s2]
  | cons e es ih =>
    intro st hs
    show (step st e).bind (run (es ++ Event.tap :: rest)) = none
    cases hstep : step st e with
    | none => rfl
    | some st1 => exact ih st1 (stuck_step st st1 e hs hstep)

theorem blocked_after (pre es rest : List Event) (st st1 : State)
    (h : run pre st = some st1) (hs : Stuck st1) :
    run (pre ++ (es ++ Event.tap :: rest)) st = none := by
  rw [run_append, h]
  exact stuck_blocks es rest st1 hs

/-- C4 as the code has it: `startStreaming` carries no guard of its own; called twice in a row
with a device and an address selected and every library call succeeding, it leaves two capture
loops, two open streams and two open sockets; the second call opens, dials and starts again and
logs no error. -/
theorem startStreaming_twice :
    (startStreaming ⟨false, false, false⟩
      (startStreaming ⟨false, false, false⟩ selectedState)).loops = 2 ∧
    (startStreaming ⟨false, false, false⟩
      (startStreaming ⟨false, false, false⟩ selectedState)).openStreams.length = 2 ∧
    (startStreaming ⟨false, false, false⟩
      (startStreaming ⟨false, false, false⟩ selectedState)).openConns.length = 2 ∧
    (startStreaming ⟨false, false, false⟩
      (startStreaming ⟨false, false, false⟩ selectedState)).calls
        = [Call.openStream, Call.dial "10.0.0.5:9999", Call.streamStart,
           Call.openStream, Call.dial "10.0.0.5:9999", Call.streamStart] ∧
    (startStreaming ⟨false, false, false⟩
      (startStreaming ⟨false, false, false⟩ selectedState)).logs
        = ["Transmitindo áudio para 10.0.0.5", "Transmitindo áudio para 10.0.0.5"] :=
  ⟨by decide, by decide, by decide, by decide, by decide⟩

/-- C4, amended: the button is a toggle. After every schedule of selections, presses,
`startStreaming` runs, capture-loop passes and loop returns from the initial state, the capture
loops that can still take the stop value plus the `startStreaming` calls launched and not yet run
number at most one, and when there is one `started` is true. When in addition `startStreaming`
never runs while a stopped loop has its teardown still to run, at most one capture loop has not
returned and the open streams and the open sockets are exactly one per such loop. A press made
while `started` is false launches `startStreaming`, sets `started` and does nothing else. A press
made while `started` is true launches nothing and calls nothing: with a capture loop there to
receive, it hands over the stop value and clears `started`; with none, it does not return. -/
theorem startBtn_single_session (events : List Event) (st : State)
    (h : run events State.init = some st) :
    (st.stopping ≤ st.loops ∧ (st.loops - st.stopping) + st.starting ≤ 1) ∧
    ((st.loops - st.stopping) + st.starting = 1 → st.started = true) ∧
    (quiet events State.init = true →
      st.loops ≤ 1 ∧ st.openStreams.length = st.loops ∧ st.openConns.length = st.loops) ∧
    (∀ s : State, s.started = false →
      startBtnTapped s
        = some { s with starting := s.starting + 1, started := true, btnText := "Parar" }) ∧
    (∀ s : State, s.started = true → s.loops ≤ s.stopping → startBtnTapped s = none) ∧
    (∀ s : State, s.started = true → s.stopping < s.loops →
      startBtnTapped s
        = some { s with
            stopping := s.stopping + 1
            started := false
            btnText := "Iniciar Transmissão" }) := by
  have h0 : Toggle State.init := ⟨Nat.le_refl 0, by decide, by decide⟩
  obtain ⟨t1, t2, t3⟩ := run_toggle events State.init st h0 h
  refine ⟨⟨t1, t2⟩, t3, ?_, ?_, ?_, ?_⟩
  · intro hq
    have hs : Settled st :=
      run_settled events State.init st h0 (Or.inl ⟨rfl, rfl, rfl⟩) hq h
    rcases hs with ⟨hl, e1, e2⟩ | ⟨hl, s, c, -, -, e3, e4⟩
    · rw [hl, e1, e2]; exact ⟨by omega, rfl, rfl⟩
    · rw [hl, e3, e4]; exact ⟨by omega, rfl, rfl⟩
  · intro s hs
    simp [startBtnTapped, hs]
  · intro s hs hl
    simp [startBtnTapped, hs, hl]
  · intro s hs hl
    simp [startBtnTapped, hs, Nat.not_le.mpr hl]

theorem startBtn_single_session_witness :
    run [Event.selectDevice (some "mic"), Event.selectIP "10.0.0.5", Event.tap,
        Event.startRun ⟨false, false, false⟩] State.init = some runningState ∧
    ((runningState.stopping ≤ runningState.loops ∧
      (runningState.loops - runningState.stopping) + runningState.starting ≤ 1) ∧
    ((runningState.loops - runningState.stopping) + runningState.starting = 1 →
      runningState.started = true) ∧
    (quiet [Event.selectDevice (some "mic"), Event.selectIP "10.0.0.5", Event.tap,
        Event.startRun ⟨false, false, false⟩] State.init = true →
      runningState.loops ≤ 1 ∧ runningState.openStreams.length = runningState.loops ∧
      runningState.openConns.length = runningState.loops) ∧
    (∀ s : State, s.started = false →
      startBtnTapped s
        = some { s with starting := s.starting + 1, started := true, btnText := "Parar" }) ∧
    (∀ s : State, s.started = true → s.loops ≤ s.stopping → startBtnTapped s = none) ∧
    (∀ s : State, s.started = true → s.stopping < s.loops →
      startBtnTapped s
        = some { s with
            stopping := s.stopping + 1
            started := false
            btnText := "Iniciar Transmissão" })) :=
  ⟨by decide, startBtn_single_session
    [Event.selectDevice (some "mic"), Event.selectIP "10.0.0.5", Event.tap,
      Event.startRun ⟨false, false, false⟩] runningState (by decide)⟩

/-- A start that runs while the previous loop has its teardown still to run: the teardown then
closes the stream and the socket of the new session, those of the old one stay open, and after
one more stop and start two streams and two sockets are open with one capture loop. -/
theorem start_during_teardown :
    (run [Event.tap, Event.startRun ⟨false, false, false⟩, Event.tap, Event.tap,
        Event.startRun ⟨false, false, false⟩, Event.loopReturn false false]
        selectedState).map
        (fun s => (s.started, s.loops, s.stopping, s.openStreams, s.openConns))
      = some (true, 1, 0, [0], [1]) ∧
    (run [Event.tap, Event.startRun ⟨false, false, false⟩, Event.tap, Event.tap,
        Event.startRun ⟨false, false, false⟩, Event.loopReturn false false]
        selectedState).map (fun s => (s.stream, s.conn))
      = some (some 2, some 3) ∧
    (run [Event.tap, Event.startRun ⟨false, false, false⟩, Event.tap, Event.tap,
        Event.startRun ⟨false, false, false⟩, Event.loopReturn false false,
        Event.tap, Event.loopReturn false false, Event.tap,
        Event.startRun ⟨false, false, false⟩] selectedState).map
        (fun s => (s.started, s.loops, s.stopping, s.openStreams, s.openConns))
      = some (true, 1, 0, [4, 0], [5, 1]) :=
  ⟨by decide, by decide, by decide⟩

/-- C5 on the code: pressing the button in the initial state (no device, no address) opens
nothing and calls nothing, as claimed, but the callback still sets `started` and shows `Parar`,
and they stay so when the launched `startStreaming` has given up; a second press sends on
`stopStream` with no capture loop to receive, and once `startStreaming` has given up no
schedule lets a further press return. The same happens with a device selected and the address
empty. -/
theorem startBtnTapped_invalid_config :
    run [Event.tap] State.init
      = some { State.init with started := true, btnText := "Parar", starting := 1 } ∧
    run [Event.tap, Event.startRun ⟨false, false, false⟩] State.init
      = some { State.init with
          started := true
          btnText := "Parar"
          logs := ["Selecione interface de áudio e IP."] } ∧
    run [Event.tap, Event.tap] State.init = none ∧
    (∀ (o : StartOutcome) (es rest : List Event),
      run ([Event.tap, Event.startRun o] ++ (es ++ Event.tap :: rest)) State.init = none) ∧
    (run [Event.selectDevice (some "mic"), Event.tap, Event.startRun ⟨false, false, false⟩]
        State.init).map
          (fun s => (s.started, s.calls, s.openStreams, s.openConns, s.loops))
      = some (true, [], [], [], 0) ∧
    (∀ (o : StartOutcome) (es rest : List Event),
      run ([Event.selectDevice (some "mic"), Event.tap, Event.startRun o]
        ++ (es ++ Event.tap :: rest)) State.init = none) := by
  refine ⟨by decide, by decide, by decide, ?_, by decide, ?_⟩
  · intro o es rest
    obtain ⟨a, b, c⟩ := o
    refine blocked_after _ es rest State.init
      { State.init with
          started := true
          btnText := "Parar"
          logs := ["Selecione interface de áudio e IP."] } ?_ (by decide)
    cases a <;> cases b <;> cases c <;> decide
  · intro o es rest
    obtain ⟨a, b, c⟩ := o
    refine blocked_after _ es rest State.init
      { State.init with
          selectedDev := some "mic"
          started := true
          btnText := "Parar"
          logs := ["Selecione interface de áudio e IP."] } ?_ (by decide)
    cases a <;> cases b <;> cases c <;> decide

theorem startStreaming_failure_unwinds (o : StartOutcome) (st : State)
    (hc : ¬ (st.selectedDev = none ∨ st.selectedIP = ""))
    (hf : o.openErr = true ∨ o.dialErr = true ∨ o.startErr = true) :
    (startStreaming o st).loops = st.loops ∧
    (startStreaming o st).openStreams = st.openStreams ∧
    (startStreaming o st).openConns = st.openConns ∧
    (startStreaming o st).calls = st.calls ++
      (if o.openErr then [Call.openStream]
       else if o.dialErr then
         [Call.openStream, Call.dial (st.selectedIP ++ ":9999"), Call.streamClose]
       else [Call.openStream, Call.dial (st.selectedIP ++ ":9999"), Call.streamStart,
         Call.connClose, Call.streamClose]) := by
  obtain ⟨oe, de, se⟩ := o
  unfold startStreaming
  rw [if_neg hc]
  cases oe
  · cases de
    · cases se
      · simp at hf
      · simp [State.log, State.closeConn, State.closeStream]
    · simp [State.log, State.closeStream]
  · simp [State.log]

/-- C7 on the code: with a device and an address selected, a failure of the device open, of the
dial or of the stream start releases what was acquired in reverse order (socket before stream)
and starts no capture loop, as claimed, but the button callback has set `started`, which stays
true; a further press then finds no capture loop to receive, and no schedule lets it return. -/
theorem startBtnTapped_failed_start :
    (run [Event.tap, Event.startRun ⟨true, false, false⟩] selectedState).map
        (fun s => (s.started, s.calls, s.openStreams, s.openConns, s.loops))
      = some (true, [Call.openStream], [], [], 0) ∧
    (run [Event.tap, Event.startRun ⟨false, true, false⟩] selectedState).map
        (fun s => (s.started, s.calls, s.openStreams, s.openConns, s.loops))
      = some (true, [Call.openStream, Call.dial "10.0.0.5:9999", Call.streamClose],
          [], [], 0) ∧
    (run [Event.tap, Event.startRun ⟨false, false, true⟩] selectedState).map
        (fun s => (s.started, s.calls, s.openStreams, s.openConns, s.loops))
      = some (true, [Call.openStream, Call.dial "10.0.0.5:9999", Call.streamStart,
          Call.connClose, Call.streamClose], [], [], 0) ∧
    (∀ es rest : List Event,
      run ([Event.tap, Event.startRun ⟨true, false, false⟩] ++ (es ++ Event.tap :: rest))
        selectedState = none) ∧
    (∀ es rest : List Event,
      run ([Event.tap, Event.startRun ⟨false, true, false⟩] ++ (es ++ Event.tap :: rest))
        selectedState = none) ∧
    (∀ es rest : List Event,
      run ([Event.tap, Event.startRun ⟨false, false, true⟩] ++ (es ++ Event.tap :: rest))
        selectedState = none) := by
  refine ⟨by decide, by decide, by decide, ?_, ?_, ?_⟩
  · intro es rest
    cases hr : run [Event.tap, Event.startRun ⟨true, false, false⟩] selectedState with
    | none => exact absurd hr (by decide)
    | some s1 =>
      refine blocked_after _ es rest selectedState s1 hr ?_
      have hs : (run [Event.tap, Event.startRun ⟨true, false, false⟩] selectedState).all
          (fun s => decide (Stuck s)) = true := by decide
      rw [hr] at hs
      simpa using hs
  · intro es rest
    cases hr : run [Event.tap, Event.startRun ⟨false, true, false⟩] selectedState with
    | none => exact absurd hr (by decide)
    | some s1 =>
      refine blocked_after _ es rest selectedState s1 hr ?_
      have hs : (run [Event.tap, Event.startRun ⟨false, true, false⟩] selectedState).all
          (fun s => decide (Stuck s)) = true := by decide
      rw [hr] at hs
      simpa using hs
  · intro es rest
    cases hr : run [Event.tap, Event.startRun ⟨false, false, true⟩] selectedState with
    | none => exact absurd hr (by decide)
    | some s1 =>
      refine blocked_after _ es rest selectedState s1 hr ?_
      have hs : (run [Event.tap, Event.startRun ⟨false, false, true⟩] selectedState).all
          (fun s => decide (Stuck s)) = true := by decide
      rw [hr] at hs
      simpa using hs

end Delfos
